import Mathlib

/-!
Shallow embedding of `src/linux.rs` of the enigo repository: a thin wrapper
around the xdo automation engine.  The wrapper's mutable state is the pair
(delay, window); every public operation is modelled as a pure function that
returns the list of calls it issues across the C boundary (`XdoCall`).
`CString::new(..).unwrap()` panics on an embedded null byte; a panic is
modelled as the `none` outcome, in which no engine call is issued.
-/

namespace Enigo2

/-- Abstract mouse buttons (`crate::MouseButton`), in declaration order. -/
inductive MouseButton
  | Left
  | Middle
  | Right
  | ScrollUp
  | ScrollDown
  | ScrollLeft
  | ScrollRight
deriving DecidableEq, Repr

/-- Abstract keys (`crate::Key`): the symbolic variants named in
`keysequence`, plus the Unicode code-point escape hatch `Layout`
(the Rust field is a `char`; here its scalar value as a `Nat`) and the raw
keycode escape hatch `Raw` (the Rust field is a `u16`). -/
inductive Key
  | Alt
  | Backspace
  | CapsLock
  | Control
  | Delete
  | DownArrow
  | End
  | Escape
  | F1
  | F2
  | F3
  | F4
  | F5
  | F6
  | F7
  | F8
  | F9
  | F10
  | F11
  | F12
  | Home
  | LeftArrow
  | Option
  | PageDown
  | PageUp
  | Return
  | RightArrow
  | Shift
  | Space
  | Tab
  | UpArrow
  | Command
  | Super
  | Windows
  | Meta
  | Layout (c : Nat)
  | Raw (k : Nat)
deriving DecidableEq, Repr

/-- Fixed-layout record passed to `xdo_search_windows`
(`Search` in linux.rs).  The five pattern fields are C string pointers;
they are only ever left at their zeroed (null) default here, so they are
modelled as `Nat` with 0 standing for the null pointer. -/
structure Search where
  title : Nat
  winclass : Nat
  winclassname : Nat
  winname : Nat
  winrole : Nat
  pid : Int
  max_depth : Int
  only_visible : Int
  screen : Int
  require : Nat
  searchmask : Nat
  desktop : Int
  limit : Nat
deriving DecidableEq, Repr

/-- The zeroed record produced by `Search::default()` (`mem::zeroed`). -/
def Search.zeroed : Search :=
  { title := 0, winclass := 0, winclassname := 0, winname := 0, winrole := 0,
    pid := 0, max_depth := 0, only_visible := 0, screen := 0, require := 0,
    searchmask := 0, desktop := 0, limit := 0 }

/-- One call across the C boundary into the xdo engine, with the arguments
the wrapper passes (the opaque handle argument is implicit: every call is on
the instance's own handle).  Strings are recorded as the content of the
`CString` handed to the engine. -/
inductive XdoCall
  | xdoNew
  | xdoFree
  | focusWindow (window : Int)
  | getPidWindow (window : Int)
  | searchWindows (s : Search)
  | clickWindow (window : Int) (button : Int)
  | mouseDownC (window : Int) (button : Int)
  | mouseUpC (window : Int) (button : Int)
  | moveMouse (x : Int) (y : Int) (screen : Int)
  | moveMouseRelative (x : Int) (y : Int)
  | enterTextWindow (window : Int) (s : String) (delay : Nat)
  | keysequenceWindow (window : Int) (s : String) (delay : Nat)
  | keysequenceWindowDown (window : Int) (s : String) (delay : Nat)
  | keysequenceWindowUp (window : Int) (s : String) (delay : Nat)
deriving DecidableEq, Repr

/-- `mousebutton` of linux.rs: the button code sent to xdo. -/
def mousebutton : MouseButton → Int
  | .Left => 1
  | .Middle => 2
  | .Right => 3
  | .ScrollUp => 4
  | .ScrollDown => 5
  | .ScrollLeft => 6
  | .ScrollRight => 7

/-- The `CURRENT_WINDOW` constant of linux.rs. -/
def CURRENT_WINDOW : Int := 0

/-- The `DEFAULT_DELAY` constant of linux.rs. -/
def DEFAULT_DELAY : Nat := 12000

/-- The mutable state of an `Enigo` instance: the keypress delay (`u64`)
and the target window id (`i32`).  The xdo handle itself is opaque and
carries no observable state beyond the calls made on it, which are traced
separately. -/
structure Enigo where
  delay : Nat
  window : Int
deriving DecidableEq, Repr

/-- `Enigo::default()`: the fresh state together with the engine calls made
during construction (`xdo_new`). -/
def Enigo.construct : Enigo × List XdoCall :=
  ({ delay := DEFAULT_DELAY, window := CURRENT_WINDOW }, [XdoCall.xdoNew])

/-- The state component of `Enigo::default()`. -/
def Enigo.default : Enigo := Enigo.construct.1

/-- `Enigo::set_delay`. -/
def Enigo.set_delay (e : Enigo) (d : Nat) : Enigo := { e with delay := d }

/-- `Enigo::set_window`. -/
def Enigo.set_window (e : Enigo) (w : Int) : Enigo := { e with window := w }

/-- `Drop for Enigo`: the calls made when the instance is dropped. -/
def Enigo.drop (_e : Enigo) : List XdoCall := [XdoCall.xdoFree]

/-- Uppercase hexadecimal digit characters, as used by Rust's `{:X}`
formatting (0-9 then A-F). -/
def hexDigitChar (n : Nat) : Char :=
  if n < 10 then Char.ofNat (48 + n) else Char.ofNat (55 + n)

/-- Digit string of `n` in base `b`, most significant digit first, no
leading zeros; structural recursion on a fuel bound so that the kernel can
evaluate it (`fuel > n` always gives the full digit string). -/
def digitsCharsAux (b : Nat) : Nat → Nat → List Char
  | 0, _ => []
  | fuel + 1, n =>
    if n < b then [hexDigitChar n]
    else digitsCharsAux b fuel (n / b) ++ [hexDigitChar (n % b)]

/-- Digit string of `n` in base 16, uppercase, no leading zeros
(`format!("{:X}", n)`). -/
def hexChars (n : Nat) : List Char := digitsCharsAux 16 (n + 1) n

/-- Digit string of `n` in base 10 (`format!("{}", n)`). -/
def decChars (n : Nat) : List Char := digitsCharsAux 10 (n + 1) n

/-- `keysequence` of linux.rs: the textual token sent to the engine for an
abstract key.  `Layout c` is `format!("U{:X}", c as u32)`; `Raw k` is
`format!("{}", k as u16)` (the field is already a `u16`). -/
def keysequence : Key → String
  | .Layout c => String.mk ('U' :: hexChars c)
  | .Raw k => String.mk (decChars k)
  | .Alt => "Alt"
  | .Backspace => "BackSpace"
  | .CapsLock => "Caps_Lock"
  | .Control => "Control"
  | .Delete => "Delete"
  | .DownArrow => "Down"
  | .End => "End"
  | .Escape => "Escape"
  | .F1 => "F1"
  | .F10 => "F10"
  | .F11 => "F11"
  | .F12 => "F12"
  | .F2 => "F2"
  | .F3 => "F3"
  | .F4 => "F4"
  | .F5 => "F5"
  | .F6 => "F6"
  | .F7 => "F7"
  | .F8 => "F8"
  | .F9 => "F9"
  | .Home => "Home"
  | .LeftArrow => "Left"
  | .Option => "Option"
  | .PageDown => "Page_Down"
  | .PageUp => "Page_Up"
  | .Return => "Return"
  | .RightArrow => "Right"
  | .Shift => "Shift"
  | .Space => "space"
  | .Tab => "Tab"
  | .UpArrow => "Up"
  | .Command => "Super"
  | .Super => "Super"
  | .Windows => "Super"
  | .Meta => "Super"

/-- Whether a character list contains the null character (the byte that
`CString::new` rejects; in UTF-8 a zero byte occurs exactly at U+0000). -/
def hasNul : List Char → Bool
  | [] => false
  | c :: cs => if c = Char.ofNat 0 then true else hasNul cs

/-- `CString::new(s)`: fails (returns `none`) exactly when `s` contains an
embedded null character; otherwise yields the same content. -/
def cstringNew (s : String) : Option String :=
  if hasNul s.data then none else some s

/-- Two's-complement wrap-around into the `i32` range, the release-mode
semantics of Rust's overflowing arithmetic. -/
def wrapI32 (n : Int) : Int := (n + 2 ^ 31) % 2 ^ 32 - 2 ^ 31

/-- Reinterpretation of a `u32` value as an `i32` (`output as i32`). -/
def u32AsI32 (n : Nat) : Int := if n < 2 ^ 31 then (n : Int) else (n : Int) - 2 ^ 32

/-- `Enigo::window_focus`: its engine call and its raw return is the
engine's status, which this layer passes through untouched. -/
def Enigo.window_focus (e : Enigo) : List XdoCall := [XdoCall.focusWindow e.window]

/-- `Enigo::window_pid`: its engine call. -/
def Enigo.window_pid (e : Enigo) : List XdoCall := [XdoCall.getPidWindow e.window]

/-- `Enigo::search_window_by_pid`: builds the `Search` record
(pid, `max_depth = 100`, `searchmask = 1 << 3`, rest from
`Search::default()`), calls `xdo_search_windows`, prints the count the
engine reported and returns it cast to `i32`.  The engine's out-parameter
`count` (a `u32`) is a parameter of the model.  Result: (returned value,
engine calls, stdout lines). -/
def Enigo.search_window_by_pid (_e : Enigo) (pid : Int) (count : Nat) :
    Int × List XdoCall × List String :=
  let search : Search :=
    { Search.zeroed with pid := pid, max_depth := 100, searchmask := 8 }
  let output : Nat := count
  (u32AsI32 output, [XdoCall.searchWindows search],
    ["number of windows: " ++ Nat.repr output])

/-- `mouse_move_to`: `xdo_move_mouse(xdo, x, y, 0)` (screen fixed at 0,
no window argument). -/
def Enigo.mouse_move_to (_e : Enigo) (x y : Int) : List XdoCall :=
  [XdoCall.moveMouse x y 0]

/-- `mouse_move_relative`: `xdo_move_mouse_relative(xdo, x, y)`. -/
def Enigo.mouse_move_relative (_e : Enigo) (x y : Int) : List XdoCall :=
  [XdoCall.moveMouseRelative x y]

/-- `mouse_down`: `xdo_mouse_down(xdo, window, mousebutton(button))`. -/
def Enigo.mouse_down (e : Enigo) (button : MouseButton) : List XdoCall :=
  [XdoCall.mouseDownC e.window (mousebutton button)]

/-- `mouse_up`: `xdo_mouse_up(xdo, window, mousebutton(button))`. -/
def Enigo.mouse_up (e : Enigo) (button : MouseButton) : List XdoCall :=
  [XdoCall.mouseUpC e.window (mousebutton button)]

/-- `mouse_click`: `xdo_click_window(xdo, window, mousebutton(button))`. -/
def Enigo.mouse_click (e : Enigo) (button : MouseButton) : List XdoCall :=
  [XdoCall.clickWindow e.window (mousebutton button)]

/-- `mouse_scroll_x`: picks ScrollLeft for negative length else ScrollRight,
negates a negative length (i32 negation, which wraps at `i32::MIN` in
release mode), then clicks that many times. -/
def Enigo.mouse_scroll_x (e : Enigo) (length : Int) : List XdoCall :=
  let button : MouseButton :=
    if length < 0 then MouseButton.ScrollLeft else MouseButton.ScrollRight
  let length2 : Int := if length < 0 then wrapI32 (-length) else length
  List.flatten (List.replicate length2.toNat (e.mouse_click button))

/-- `mouse_scroll_y`: same policy with ScrollUp / ScrollDown. -/
def Enigo.mouse_scroll_y (e : Enigo) (length : Int) : List XdoCall :=
  let button : MouseButton :=
    if length < 0 then MouseButton.ScrollUp else MouseButton.ScrollDown
  let length2 : Int := if length < 0 then wrapI32 (-length) else length
  List.flatten (List.replicate length2.toNat (e.mouse_click button))

/-- `key_sequence`: `CString::new(sequence).unwrap()` then
`xdo_enter_text_window(xdo, window, string, delay)`.  `none` models the
panic of `unwrap` on an embedded null; no engine call is issued then. -/
def Enigo.key_sequence (e : Enigo) (sequence : String) : Option (List XdoCall) :=
  match cstringNew sequence with
  | none => none
  | some str => some [XdoCall.enterTextWindow e.window str e.delay]

/-- `key_down`: translate the key, convert to a `CString` (panic on an
embedded null, modelled as `none`), send the key-sequence-down call. -/
def Enigo.key_down (e : Enigo) (key : Key) : Option (List XdoCall) :=
  match cstringNew (keysequence key) with
  | none => none
  | some str => some [XdoCall.keysequenceWindowDown e.window str e.delay]

/-- `key_up`: like `key_down` with the key-sequence-up call. -/
def Enigo.key_up (e : Enigo) (key : Key) : Option (List XdoCall) :=
  match cstringNew (keysequence key) with
  | none => none
  | some str => some [XdoCall.keysequenceWindowUp e.window str e.delay]

/-- `key_click`: like `key_down` with the plain key-sequence call. -/
def Enigo.key_click (e : Enigo) (key : Key) : Option (List XdoCall) :=
  match cstringNew (keysequence key) with
  | none => none
  | some str => some [XdoCall.keysequenceWindow e.window str e.delay]

/-- The public operations of the wrapper that touch the engine or the
mutable state, for trace reasoning over call sequences. -/
inductive Op
  | mouseMoveTo (x y : Int)
  | mouseMoveRelative (x y : Int)
  | mouseDown (b : MouseButton)
  | mouseUp (b : MouseButton)
  | mouseClick (b : MouseButton)
  | mouseScrollX (n : Int)
  | mouseScrollY (n : Int)
  | keySequence (s : String)
  | keyDown (k : Key)
  | keyUp (k : Key)
  | keyClick (k : Key)
  | setDelay (d : Nat)
  | setWindow (w : Int)
deriving DecidableEq, Repr

/-- Whether an operation is `set_window`. -/
def Op.isSetWindow : Op → Bool
  | .setWindow _ => true
  | _ => false

/-- Whether an operation is `set_delay`. -/
def Op.isSetDelay : Op → Bool
  | .setDelay _ => true
  | _ => false

/-- The successor state of one operation: only the two setters mutate the
wrapper state. -/
def stepSt (e : Enigo) : Op → Enigo
  | .setDelay d => e.set_delay d
  | .setWindow w => e.set_window w
  | _ => e

/-- The engine calls one operation issues from state `e`, or `none` when
the operation panics (keyboard operations on a null-containing string). -/
def stepCalls (e : Enigo) : Op → Option (List XdoCall)
  | .mouseMoveTo x y => some (e.mouse_move_to x y)
  | .mouseMoveRelative x y => some (e.mouse_move_relative x y)
  | .mouseDown b => some (e.mouse_down b)
  | .mouseUp b => some (e.mouse_up b)
  | .mouseClick b => some (e.mouse_click b)
  | .mouseScrollX n => some (e.mouse_scroll_x n)
  | .mouseScrollY n => some (e.mouse_scroll_y n)
  | .keySequence s => e.key_sequence s
  | .keyDown k => e.key_down k
  | .keyUp k => e.key_up k
  | .keyClick k => e.key_click k
  | .setDelay _ => some []
  | .setWindow _ => some []

/-- Runs a sequence of operations, collecting the engine calls issued; a
panic stops the run (nothing further is issued). -/
def runOps (e : Enigo) : List Op → List XdoCall
  | [] => []
  | op :: rest =>
    match stepCalls e op with
    | none => []
    | some calls => calls ++ runOps (stepSt e op) rest

/-- The window id an engine call carries, when it carries one
(mouse moves, searches and lifecycle calls carry none). -/
def callWindow : XdoCall → Option Int
  | .focusWindow w => some w
  | .getPidWindow w => some w
  | .clickWindow w _ => some w
  | .mouseDownC w _ => some w
  | .mouseUpC w _ => some w
  | .enterTextWindow w _ _ => some w
  | .keysequenceWindow w _ _ => some w
  | .keysequenceWindowDown w _ _ => some w
  | .keysequenceWindowUp w _ _ => some w
  | _ => none

/-- The delay an engine call carries, when it carries one (only the
keyboard calls do). -/
def callDelay : XdoCall → Option Nat
  | .enterTextWindow _ _ d => some d
  | .keysequenceWindow _ _ d => some d
  | .keysequenceWindowDown _ _ d => some d
  | .keysequenceWindowUp _ _ d => some d
  | _ => none

/-- Every window id a call carries equals `W`. -/
def windowOk (W : Int) (c : XdoCall) : Bool :=
  match callWindow c with
  | none => true
  | some w => w = W

/-- Every delay a call carries equals `D`. -/
def delayOk (D : Nat) (c : XdoCall) : Bool :=
  match callDelay c with
  | none => true
  | some d => d = D

/-- Whether the key is one of the symbolic variants (not an escape hatch). -/
def Key.isSymbolic : Key → Bool
  | .Layout _ => false
  | .Raw _ => false
  | _ => true

/-- Value of an uppercase-hexadecimal digit character. -/
def digitVal (c : Char) : Nat :=
  if c.toNat ≤ 57 then c.toNat - 48 else c.toNat - 55

/-- Whether `c` is a digit `0`–`9` or `A`–`F`. -/
def isUpperHexDigit (c : Char) : Bool :=
  (48 ≤ c.toNat && c.toNat ≤ 57) || (65 ≤ c.toNat && c.toNat ≤ 70)

/-- Whether `c` is a digit `0`–`9`. -/
def isDecDigit (c : Char) : Bool :=
  48 ≤ c.toNat && c.toNat ≤ 57

/-- Reads a digit string back as a number in the given base. -/
def digitsVal (base : Nat) (l : List Char) : Nat :=
  l.foldl (fun acc c => acc * base + digitVal c) 0

/-! Helper lemmas. -/

theorem digitVal_hexDigitChar : ∀ m, m < 16 → digitVal (hexDigitChar m) = m := by decide

theorem hexDigitChar_ne_nul : ∀ m, m < 16 → hexDigitChar m ≠ Char.ofNat 0 := by decide

theorem isUpperHexDigit_hexDigitChar : ∀ m, m < 16 → isUpperHexDigit (hexDigitChar m) = true := by
  decide

theorem isDecDigit_hexDigitChar : ∀ m, m < 10 → isDecDigit (hexDigitChar m) = true := by decide

theorem digitsVal_append_digit (b : Nat) (l : List Char) (c : Char) :
    digitsVal b (l ++ [c]) = digitsVal b l * b + digitVal c := by
  simp [digitsVal, List.foldl_append]

theorem digitsCharsAux_spec (b : Nat) (hb : 2 ≤ b) (hb16 : b ≤ 16) :
    ∀ fuel n, n < fuel →
      digitsCharsAux b fuel n ≠ [] ∧
      (∀ d ∈ digitsCharsAux b fuel n, ∃ m, m < b ∧ d = hexDigitChar m) ∧
      digitsVal b (digitsCharsAux b fuel n) = n := by
  intro fuel
  induction fuel with
  | zero => intro n hn; omega
  | succ fuel ih =>
    intro n hn
    by_cases hnb : n < b
    · refine ⟨by simp [digitsCharsAux, hnb], ?_, ?_⟩
      · intro d hd
        simp [digitsCharsAux, hnb] at hd
        exact ⟨n, hnb, hd⟩
      · simp [digitsCharsAux, hnb, digitsVal]
        exact digitVal_hexDigitChar n (by omega)
    · have hdiv : n / b < fuel := by
        have h1 : n / b < n := Nat.div_lt_self (by omega) (by omega)
        omega
      obtain ⟨hne, hmem, hval⟩ := ih (n / b) hdiv
      refine ⟨by simp [digitsCharsAux, hnb], ?_, ?_⟩
      · intro d hd
        simp only [digitsCharsAux, if_neg hnb, List.mem_append, List.mem_singleton] at hd
        rcases hd with hd | hd
        · exact hmem d hd
        · exact ⟨n % b, Nat.mod_lt n (by omega), hd⟩
      · simp only [digitsCharsAux, if_neg hnb]
        rw [digitsVal_append_digit, hval,
          digitVal_hexDigitChar (n % b) (by have := Nat.mod_lt n (show 0 < b by omega); omega)]
        rw [Nat.mul_comm (n / b) b]
        exact Nat.div_add_mod n b

theorem hexChars_spec (n : Nat) :
    hexChars n ≠ [] ∧
    (∀ d ∈ hexChars n, ∃ m, m < 16 ∧ d = hexDigitChar m) ∧
    digitsVal 16 (hexChars n) = n :=
  digitsCharsAux_spec 16 (by omega) (by omega) (n + 1) n (Nat.lt_succ_self n)

theorem decChars_spec (n : Nat) :
    decChars n ≠ [] ∧
    (∀ d ∈ decChars n, ∃ m, m < 10 ∧ d = hexDigitChar m) ∧
    digitsVal 10 (decChars n) = n :=
  digitsCharsAux_spec 10 (by omega) (by omega) (n + 1) n (Nat.lt_succ_self n)

theorem hasNul_eq_false_iff (l : List Char) :
    hasNul l = false ↔ ∀ c ∈ l, c ≠ Char.ofNat 0 := by
  induction l with
  | nil => simp [hasNul]
  | cons c cs ih =>
    by_cases hc : c = Char.ofNat 0
    · simp [hasNul, hc]
    · simp [hasNul, hc, ih]

theorem hasNul_hexChars (n : Nat) : hasNul (hexChars n) = false := by
  rw [hasNul_eq_false_iff]
  intro c hc
  obtain ⟨m, hm, rfl⟩ := (hexChars_spec n).2.1 c hc
  exact hexDigitChar_ne_nul m hm

theorem hasNul_decChars (n : Nat) : hasNul (decChars n) = false := by
  rw [hasNul_eq_false_iff]
  intro c hc
  obtain ⟨m, hm, rfl⟩ := (decChars_spec n).2.1 c hc
  exact hexDigitChar_ne_nul m (by omega)

theorem flatten_replicate_singleton {α : Type} (k : Nat) (c : α) :
    List.flatten (List.replicate k [c]) = List.replicate k c := by
  induction k with
  | zero => rfl
  | succ k ih => simp [List.replicate_succ, ih]

theorem wrapI32_eq_self (n : Int) (h1 : -(2 ^ 31) ≤ n) (h2 : n < 2 ^ 31) :
    wrapI32 n = n := by
  have e31 : (2 : Int) ^ 31 = 2147483648 := by norm_num
  have e32 : (2 : Int) ^ 32 = 4294967296 := by norm_num
  rw [wrapI32, e31, e32]
  rw [e31] at h1 h2
  omega

theorem keysequence_no_nul (k : Key) : hasNul (keysequence k).data = false := by
  cases k <;> try decide
  case Layout c =>
    show hasNul ('U' :: hexChars c) = false
    rw [hasNul_eq_false_iff]
    intro d hd
    rcases List.mem_cons.mp hd with rfl | hd
    · decide
    · obtain ⟨m, hm, rfl⟩ := (hexChars_spec c).2.1 d hd
      exact hexDigitChar_ne_nul m hm
  case Raw k =>
    show hasNul (decChars k) = false
    exact hasNul_decChars k

theorem key_sequence_eq (e : Enigo) (s : String) :
    e.key_sequence s =
      if hasNul s.data then none
      else some [XdoCall.enterTextWindow e.window s e.delay] := by
  by_cases h : hasNul s.data <;> simp [Enigo.key_sequence, cstringNew, h]

theorem key_down_eq (e : Enigo) (k : Key) :
    e.key_down k =
      some [XdoCall.keysequenceWindowDown e.window (keysequence k) e.delay] := by
  simp [Enigo.key_down, cstringNew, keysequence_no_nul k]

theorem key_up_eq (e : Enigo) (k : Key) :
    e.key_up k =
      some [XdoCall.keysequenceWindowUp e.window (keysequence k) e.delay] := by
  simp [Enigo.key_up, cstringNew, keysequence_no_nul k]

theorem key_click_eq (e : Enigo) (k : Key) :
    e.key_click k =
      some [XdoCall.keysequenceWindow e.window (keysequence k) e.delay] := by
  simp [Enigo.key_click, cstringNew, keysequence_no_nul k]

theorem scroll_x_eq (e : Enigo) (n : Int) :
    e.mouse_scroll_x n =
      List.replicate (if n < 0 then wrapI32 (-n) else n).toNat
        (XdoCall.clickWindow e.window
          (mousebutton (if n < 0 then MouseButton.ScrollLeft else MouseButton.ScrollRight))) := by
  simp only [Enigo.mouse_scroll_x, Enigo.mouse_click, flatten_replicate_singleton]

theorem scroll_y_eq (e : Enigo) (n : Int) :
    e.mouse_scroll_y n =
      List.replicate (if n < 0 then wrapI32 (-n) else n).toNat
        (XdoCall.clickWindow e.window
          (mousebutton (if n < 0 then MouseButton.ScrollUp else MouseButton.ScrollDown))) := by
  simp only [Enigo.mouse_scroll_y, Enigo.mouse_click, flatten_replicate_singleton]

theorem scrollCount_eq_natAbs (n : Int) (h1 : -(2 ^ 31) < n) :
    (if n < 0 then wrapI32 (-n) else n).toNat = n.natAbs := by
  by_cases hn : n < 0
  · rw [if_pos hn, wrapI32_eq_self (-n) (by omega) (by omega)]
    omega
  · rw [if_neg hn]
    omega

theorem stepSt_window (e : Enigo) (op : Op) (hop : Op.isSetWindow op = false) :
    (stepSt e op).window = e.window := by
  cases op <;> simp_all [stepSt, Op.isSetWindow, Enigo.set_delay]

theorem stepSt_delay (e : Enigo) (op : Op) (hop : Op.isSetDelay op = false) :
    (stepSt e op).delay = e.delay := by
  cases op <;> simp_all [stepSt, Op.isSetDelay, Enigo.set_window]

theorem windowOk_click (W : Int) (b : Int) :
    windowOk W (XdoCall.clickWindow W b) = true := by
  simp [windowOk, callWindow]

theorem stepCalls_ok (e : Enigo) (op : Op) (calls : List XdoCall)
    (h : stepCalls e op = some calls) :
    ∀ c ∈ calls, windowOk e.window c = true ∧ delayOk e.delay c = true := by
  cases op with
  | mouseMoveTo x y =>
    simp only [stepCalls, Option.some.injEq] at h
    subst h
    simp [Enigo.mouse_move_to, windowOk, delayOk, callWindow, callDelay]
  | mouseMoveRelative x y =>
    simp only [stepCalls, Option.some.injEq] at h
    subst h
    simp [Enigo.mouse_move_relative, windowOk, delayOk, callWindow, callDelay]
  | mouseDown b =>
    simp only [stepCalls, Option.some.injEq] at h
    subst h
    simp [Enigo.mouse_down, windowOk, delayOk, callWindow, callDelay]
  | mouseUp b =>
    simp only [stepCalls, Option.some.injEq] at h
    subst h
    simp [Enigo.mouse_up, windowOk, delayOk, callWindow, callDelay]
  | mouseClick b =>
    simp only [stepCalls, Option.some.injEq] at h
    subst h
    simp [Enigo.mouse_click, windowOk, delayOk, callWindow, callDelay]
  | mouseScrollX n =>
    simp only [stepCalls, Option.some.injEq] at h
    subst h
    intro c hc
    rw [scroll_x_eq] at hc
    have := List.eq_of_mem_replicate hc
    subst this
    simp [windowOk, delayOk, callWindow, callDelay]
  | mouseScrollY n =>
    simp only [stepCalls, Option.some.injEq] at h
    subst h
    intro c hc
    rw [scroll_y_eq] at hc
    have := List.eq_of_mem_replicate hc
    subst this
    simp [windowOk, delayOk, callWindow, callDelay]
  | keySequence s =>
    simp only [stepCalls, key_sequence_eq] at h
    by_cases hn : hasNul s.data
    · rw [if_pos hn] at h
      exact absurd h (by simp)
    · rw [if_neg hn] at h
      obtain rfl := Option.some.inj h.symm
      simp [windowOk, delayOk, callWindow, callDelay]
  | keyDown k =>
    simp only [stepCalls, key_down_eq, Option.some.injEq] at h
    subst h
    simp [windowOk, delayOk, callWindow, callDelay]
  | keyUp k =>
    simp only [stepCalls, key_up_eq, Option.some.injEq] at h
    subst h
    simp [windowOk, delayOk, callWindow, callDelay]
  | keyClick k =>
    simp only [stepCalls, key_click_eq, Option.some.injEq] at h
    subst h
    simp [windowOk, delayOk, callWindow, callDelay]
  | setDelay d =>
    simp only [stepCalls, Option.some.injEq] at h
    subst h
    simp
  | setWindow w =>
    simp only [stepCalls, Option.some.injEq] at h
    subst h
    simp

theorem runOps_window_delay (W : Int) (D : Nat) :
    ∀ (ops : List Op) (e : Enigo), e.window = W → e.delay = D →
      ops.all (fun op => !op.isSetWindow) = true →
      ops.all (fun op => !op.isSetDelay) = true →
      ∀ c ∈ runOps e ops, windowOk W c = true ∧ delayOk D c = true := by
  intro ops
  induction ops with
  | nil => intro e _ _ _ _ c hc; simp [runOps] at hc
  | cons op rest ih =>
    intro e hW hD hnw hnd c hc
    rw [List.all_cons, Bool.and_eq_true, Bool.not_eq_true'] at hnw hnd
    rw [runOps] at hc
    rcases hstep : stepCalls e op with _ | calls
    · rw [hstep] at hc
      simp at hc
    · rw [hstep] at hc
      simp only [List.mem_append] at hc
      rcases hc with hc | hc
      · have h := stepCalls_ok e op calls hstep c hc
        rw [hW, hD] at h
        exact h
      · have hw2 : (stepSt e op).window = W := by
          rw [stepSt_window e op hnw.1, hW]
        have hd2 : (stepSt e op).delay = D := by
          rw [stepSt_delay e op hnd.1, hD]
        exact ih (stepSt e op) hw2 hd2 hnw.2 hnd.2 c hc

/-! Claim theorems. -/

/-- C1, counterexample.  The claim says `key_sequence` on a string with an
embedded null character reports a recoverable "invalid input" failure
rather than crashing.  In the code, `CString::new(sequence).unwrap()`
panics on such a string (the `none` outcome of the model): on the one-byte
input "\x00" the operation crashes instead of reporting a recoverable
failure. -/
theorem C1_counterexample :
    Enigo.default.key_sequence (String.mk [Char.ofNat 0]) = none := by decide

/-- C1, amended.  `key_sequence` detects an embedded null character while
converting the text to a `CString` and panics via `unwrap` — a fail-hard,
non-recoverable abort of the operation in which no engine call is made, so
nothing is silently truncated — and succeeds on every null-free string.
`key_click` never reaches this failure branch: no translated key token
contains an embedded null. -/
theorem C1_amended (e : Enigo) (s : String) :
    (hasNul s.data = true → e.key_sequence s = none) ∧
    (hasNul s.data = false →
      e.key_sequence s = some [XdoCall.enterTextWindow e.window s e.delay]) ∧
    (∀ k : Key, (e.key_click k).isSome = true) := by
  refine ⟨?_, ?_, ?_⟩
  · intro h
    rw [key_sequence_eq, if_pos h]
  · intro h
    rw [key_sequence_eq, if_neg (by simp [h])]
  · intro k
    rw [key_click_eq]
    rfl

/-- C1, witness for the amended theorem at the input "\x00". -/
theorem C1_amended_witness :
    hasNul (String.mk [Char.ofNat 0]).data = true ∧
    Enigo.default.key_sequence (String.mk [Char.ofNat 0]) = none :=
  ⟨by decide, (C1_amended Enigo.default (String.mk [Char.ofNat 0])).1 (by decide)⟩

/-- C2, counterexample.  The claim says that after `set_window(42)` every
dispatch operation — explicitly including `mouse_move_to` — passes window
id 42 to the engine call it issues.  But `mouse_move_to` issues
`xdo_move_mouse(xdo, x, y, 0)`, which carries no window id at all. -/
theorem C2_counterexample :
    runOps (Enigo.default.set_window 42) [Op.mouseMoveTo 5 6] =
      [XdoCall.moveMouse 5 6 0] ∧
    callWindow (XdoCall.moveMouse 5 6 0) = none ∧
    ¬ callWindow (XdoCall.moveMouse 5 6 0) = some 42 := by decide

/-- C2, amended.  With the window set to 42 and the delay set to 5000,
every engine call issued by any subsequent sequence of operations that
does not change the window carries window id 42 whenever it carries a
window id at all (the mouse-move calls carry none), and every call that
carries a delay (the keyboard calls) carries 5000 as long as the delay is
not changed. -/
theorem C2_persistence (e : Enigo) (ops : List Op)
    (hW : e.window = 42) (hD : e.delay = 5000)
    (hnw : ops.all (fun op => !op.isSetWindow) = true)
    (hnd : ops.all (fun op => !op.isSetDelay) = true) :
    (runOps e ops).all (windowOk 42) = true ∧
    (runOps e ops).all (delayOk 5000) = true := by
  have h := runOps_window_delay 42 5000 ops e hW hD hnw hnd
  constructor <;> rw [List.all_eq_true] <;> intro c hc
  · exact (h c hc).1
  · exact (h c hc).2

/-- C2, witness for the amended theorem on a concrete operation list. -/
theorem C2_persistence_witness :
    ((Enigo.default.set_window 42).set_delay 5000).window = 42 ∧
    ((Enigo.default.set_window 42).set_delay 5000).delay = 5000 ∧
    (runOps ((Enigo.default.set_window 42).set_delay 5000)
      [Op.mouseClick MouseButton.Left, Op.keyClick Key.Escape,
        Op.mouseMoveTo 1 2]).all (windowOk 42) = true := by
  refine ⟨by decide, by decide, ?_⟩
  exact (C2_persistence ((Enigo.default.set_window 42).set_delay 5000)
    [Op.mouseClick MouseButton.Left, Op.keyClick Key.Escape, Op.mouseMoveTo 1 2]
    (by decide) (by decide) (by decide) (by decide)).1

/-- C3, counterexample.  The claim quantifies over every `i32` amount, but
at `i32::MIN = -2^31` the negation `length = -length` overflows (wrapping
back to `i32::MIN` under release semantics), so zero clicks are issued
instead of `|i32::MIN|` = 2147483648 ScrollLeft clicks. -/
theorem C3_counterexample :
    Enigo.default.mouse_scroll_x (-(2 ^ 31)) = [] ∧
    (-(2 ^ 31) : Int).natAbs = 2147483648 := by decide

/-- C3, amended.  For every `i32` amount other than `i32::MIN`,
`mouse_scroll_x` issues exactly `|amount|` click calls, all of them on the
ScrollLeft button code for a negative amount and the ScrollRight button
code otherwise, and `mouse_scroll_y` does the same with ScrollUp and
ScrollDown; an amount of 0 issues no clicks. -/
theorem C3_scroll (e : Enigo) (n : Int)
    (h1 : -(2 ^ 31) < n) (h2 : n < 2 ^ 31) :
    (e.mouse_scroll_x n).length = n.natAbs ∧
    (∀ c ∈ e.mouse_scroll_x n,
      c = XdoCall.clickWindow e.window
        (mousebutton
          (if n < 0 then MouseButton.ScrollLeft else MouseButton.ScrollRight))) ∧
    (e.mouse_scroll_y n).length = n.natAbs ∧
    (∀ c ∈ e.mouse_scroll_y n,
      c = XdoCall.clickWindow e.window
        (mousebutton
          (if n < 0 then MouseButton.ScrollUp else MouseButton.ScrollDown))) ∧
    (n = 0 → e.mouse_scroll_x n = [] ∧ e.mouse_scroll_y n = []) := by
  have hx := scroll_x_eq e n
  have hy := scroll_y_eq e n
  have hcount := scrollCount_eq_natAbs n h1
  refine ⟨?_, ?_, ?_, ?_, ?_⟩
  · rw [hx, List.length_replicate, hcount]
  · intro c hc
    rw [hx] at hc
    exact List.eq_of_mem_replicate hc
  · rw [hy, List.length_replicate, hcount]
  · intro c hc
    rw [hy] at hc
    exact List.eq_of_mem_replicate hc
  · intro hn0
    subst hn0
    rw [hx, hy, hcount]
    simp

/-- C3, witness for the amended theorem at amount -3. -/
theorem C3_scroll_witness :
    -(2 ^ 31 : Int) < -3 ∧ (-3 : Int) < 2 ^ 31 ∧
    (Enigo.default.mouse_scroll_x (-3)).length = 3 := by
  refine ⟨by decide, by decide, ?_⟩
  have h := (C3_scroll Enigo.default (-3) (by decide) (by decide)).1
  rw [h]
  decide

/-- C4.  `keysequence` is total over the symbolic key variants with a
non-empty fixed token for each; the table entries the spec names hold
verbatim, and the four synonym variants Command, Super, Windows, Meta all
map to the single token "Super". -/
theorem C4_symbolic_tokens :
    (∀ k : Key, k.isSymbolic = true → keysequence k ≠ "") ∧
    (keysequence Key.Backspace = "BackSpace" ∧
     keysequence Key.DownArrow = "Down" ∧
     keysequence Key.Escape = "Escape" ∧
     keysequence Key.F1 = "F1" ∧ keysequence Key.F2 = "F2" ∧
     keysequence Key.F3 = "F3" ∧ keysequence Key.F4 = "F4" ∧
     keysequence Key.F5 = "F5" ∧ keysequence Key.F6 = "F6" ∧
     keysequence Key.F7 = "F7" ∧ keysequence Key.F8 = "F8" ∧
     keysequence Key.F9 = "F9" ∧ keysequence Key.F10 = "F10" ∧
     keysequence Key.F11 = "F11" ∧ keysequence Key.F12 = "F12" ∧
     keysequence Key.Space = "space" ∧
     keysequence Key.CapsLock = "Caps_Lock" ∧
     keysequence Key.PageUp = "Page_Up" ∧
     keysequence Key.PageDown = "Page_Down") ∧
    (keysequence Key.Command = "Super" ∧ keysequence Key.Super = "Super" ∧
     keysequence Key.Windows = "Super" ∧ keysequence Key.Meta = "Super") := by
  refine ⟨?_, by decide, by decide⟩
  intro k hk
  cases k <;> first | decide | simp [Key.isSymbolic] at hk

/-- C4, witness at the symbolic key Space. -/
theorem C4_symbolic_tokens_witness :
    Key.isSymbolic Key.Space = true ∧ keysequence Key.Space ≠ "" :=
  ⟨by decide, C4_symbolic_tokens.1 Key.Space (by decide)⟩

/-- C5.  The Unicode escape hatch produces "U" followed by a non-empty
string of uppercase hexadecimal digits whose value reads back to the code
point; the raw-keycode escape hatch produces a non-empty decimal digit
string reading back to the 16-bit keycode value; in particular
`Layout('A')` gives "U41" and `Raw(65)` gives "65". -/
theorem C5_escape_tokens :
    (∀ c : Nat,
      (keysequence (Key.Layout c)).data = 'U' :: hexChars c ∧
      hexChars c ≠ [] ∧
      (∀ d ∈ hexChars c, isUpperHexDigit d = true) ∧
      digitsVal 16 (hexChars c) = c) ∧
    (∀ k : Nat, k < 65536 →
      (keysequence (Key.Raw k)).data = decChars k ∧
      decChars k ≠ [] ∧
      (∀ d ∈ decChars k, isDecDigit d = true) ∧
      digitsVal 10 (decChars k) = k) ∧
    keysequence (Key.Layout 65) = "U41" ∧
    keysequence (Key.Raw 65) = "65" := by
  refine ⟨?_, ?_, by decide, by decide⟩
  · intro c
    refine ⟨rfl, (hexChars_spec c).1, ?_, (hexChars_spec c).2.2⟩
    intro d hd
    obtain ⟨m, hm, rfl⟩ := (hexChars_spec c).2.1 d hd
    exact isUpperHexDigit_hexDigitChar m hm
  · intro k hk
    refine ⟨rfl, (decChars_spec k).1, ?_, (decChars_spec k).2.2⟩
    intro d hd
    obtain ⟨m, hm, rfl⟩ := (decChars_spec k).2.1 d hd
    exact isDecDigit_hexDigitChar m hm

/-- C5, witness at keycode 65. -/
theorem C5_escape_tokens_witness :
    (65 : Nat) < 65536 ∧ digitsVal 10 (decChars 65) = 65 :=
  ⟨by decide, (C5_escape_tokens.2.1 65 (by decide)).2.2.2⟩

/-- C6.  `mousebutton` is total over the 7 abstract mouse buttons, mapping
them to the codes 1..7 in declaration order, and every result lies in
1..7. -/
theorem C6_mousebutton_codes :
    mousebutton MouseButton.Left = 1 ∧ mousebutton MouseButton.Middle = 2 ∧
    mousebutton MouseButton.Right = 3 ∧ mousebutton MouseButton.ScrollUp = 4 ∧
    mousebutton MouseButton.ScrollDown = 5 ∧
    mousebutton MouseButton.ScrollLeft = 6 ∧
    mousebutton MouseButton.ScrollRight = 7 ∧
    (∀ b : MouseButton, 1 ≤ mousebutton b ∧ mousebutton b ≤ 7) := by
  refine ⟨rfl, rfl, rfl, rfl, rfl, rfl, rfl, ?_⟩
  intro b
  cases b <;> exact ⟨by decide, by decide⟩

/-- C7.  `search_window_by_pid(pid)` calls the engine's window search with
a record holding exactly the given pid, max depth 100, search mask 8
(which has only bit 3 — the pid-search bit — set) and every other field at
its zeroed default; it returns the engine-reported count and prints one
diagnostic line with that count. -/
theorem C7_search (e : Enigo) (pid : Int) (count : Nat)
    (hc : count < 2 ^ 31) :
    e.search_window_by_pid pid count =
      ((count : Int),
       [XdoCall.searchWindows
         { title := 0, winclass := 0, winclassname := 0, winname := 0,
           winrole := 0, pid := pid, max_depth := 100, only_visible := 0,
           screen := 0, require := 0, searchmask := 8, desktop := 0,
           limit := 0 }],
       ["number of windows: " ++ Nat.repr count]) ∧
    ((8 : Nat).testBit 3 = true ∧
      ∀ i : Nat, i ≠ 3 → (8 : Nat).testBit i = false) := by
  refine ⟨?_, by decide, ?_⟩
  · rw [show (2 : Nat) ^ 31 = 2147483648 from by norm_num] at hc
    simp [Enigo.search_window_by_pid, u32AsI32, hc, Search.zeroed]
  · intro i hi
    rw [show (8 : Nat) = 2 ^ 3 by norm_num]
    exact Nat.testBit_two_pow_of_ne (Ne.symm hi)

/-- C7, witness at pid 1234 with an engine count of 7. -/
theorem C7_search_witness :
    (7 : Nat) < 2 ^ 31 ∧
    Enigo.default.search_window_by_pid 1234 7 =
      (((7 : Nat) : Int),
       [XdoCall.searchWindows
         { title := 0, winclass := 0, winclassname := 0, winname := 0,
           winrole := 0, pid := 1234, max_depth := 100, only_visible := 0,
           screen := 0, require := 0, searchmask := 8, desktop := 0,
           limit := 0 }],
       ["number of windows: " ++ Nat.repr 7]) :=
  ⟨by decide, (C7_search Enigo.default 1234 7 (by decide)).1⟩

/-- C9.  Construction acquires exactly one engine handle (the single
`xdo_new` call) and yields the defaults: delay 12000 microseconds and the
window sentinel 0 ("currently focused window"); the `delay` and `window`
getters read back exactly these values before any setter runs. -/
theorem C9_defaults :
    Enigo.construct.2 = [XdoCall.xdoNew] ∧
    Enigo.construct.2.count XdoCall.xdoNew = 1 ∧
    Enigo.default.delay = 12000 ∧
    Enigo.default.window = 0 ∧
    DEFAULT_DELAY = 12000 ∧ CURRENT_WINDOW = 0 ∧
    Enigo.default.delay = DEFAULT_DELAY ∧
    Enigo.default.window = CURRENT_WINDOW := by
  refine ⟨rfl, ?_, rfl, rfl, rfl, rfl, rfl, rfl⟩
  decide

/-- C10.  No abstract key — including `Layout('\0')` and every raw
keycode — translates to a token with an embedded null character, so the
`CString` conversion inside `key_down`, `key_up` and `key_click` never
takes its failure branch: the three operations succeed for every key. -/
theorem C10_no_null_tokens :
    (∀ k : Key, hasNul (keysequence k).data = false) ∧
    hasNul (keysequence (Key.Layout 0)).data = false ∧
    (∀ (e : Enigo) (k : Key),
      (e.key_down k).isSome = true ∧ (e.key_up k).isSome = true ∧
      (e.key_click k).isSome = true) := by
  refine ⟨keysequence_no_nul, keysequence_no_nul (Key.Layout 0), ?_⟩
  intro e k
  exact ⟨by rw [key_down_eq]; rfl, by rw [key_up_eq]; rfl,
    by rw [key_click_eq]; rfl⟩

end Enigo2
